import Mathlib

/-!
Verification of the Parking-Zones reconciliation engine.

The definitions below are a shallow embedding of the repository's core
logic: the zone record model and the Zod-derived payload shapes
(`scripts/schemas.mjs`), the duplicate detector, the submission insertion
path and the update/relocation path of `processSubmission` /
`processUpdate`, and the manifest builder (`manifest-utils.mjs`).

Modelling conventions:
* JavaScript numbers are modelled as exact rationals.
* A JS object used as a geohash-to-bucket map is modelled as an
  association list `List (String × List ParkingZone)` in insertion order;
  JS guarantees distinct keys, which theorems assume via a `Nodup`
  hypothesis where it matters.
* `Math.sin` / `Math.cos` / `Math.asin` / `Math.sqrt` / `Math.PI` are
  fields of an abstract `RealOps` structure, since no computable exact
  versions exist; theorems about the haversine distance take the needed
  analytic facts about these fields as hypotheses.
* `ngeohash.encode` is an external library function; it enters as an
  abstract parameter `gh : LatLng → String`, which none of the claims
  constrain beyond determinism (it is a function, hence deterministic).
* `crypto.randomUUID()` and `new Date().toISOString()` are
  nondeterministic inputs; they are lifted to explicit `uuid` / `now`
  parameters.
* The record model keeps the fields the verified properties touch
  (`id`, `name`, `center`, `radius`, `country`, `region`, `verified`,
  `version`); the remaining optional descriptive fields of the schema are
  carried through all operations unchanged in exactly the same way as
  `name` and would add nothing to the statements.
-/

set_option linter.unusedVariables false

/-- A coordinate, as in the `LatLng` schema of `schemas.mjs`. -/
structure LatLng where
  lat : ℚ
  lng : ℚ
deriving DecidableEq, Repr, Inhabited

/-- The canonical zone record (`ParkingZone` schema), abridged to the
fields the verified properties mention. -/
structure ParkingZone where
  id : String
  name : String
  center : LatLng
  radius : ℚ
  country : String
  region : String
  verified : Bool
  version : Nat
deriving DecidableEq, Repr, Inhabited

/-- The validated submission shape: `ParkingZone.omit({id, verified, version})`. -/
structure ParkingZoneSubmission where
  name : String
  center : LatLng
  radius : ℚ
  country : String
  region : String
deriving DecidableEq, Repr, Inhabited

/-- A raw submission payload as a submitter may send it: the submission
fields plus possibly-present `id` / `verified` / `version` keys.  Zod
object schemas strip keys that are not part of the schema, and the
submission schema omits these three, so parsing drops them. -/
structure RawSubmission where
  name : String
  center : LatLng
  radius : ℚ
  country : String
  region : String
  id : Option String
  verified : Option Bool
  version : Option Nat
deriving DecidableEq, Repr

/-- `ParkingZoneSubmission.safeParse` on a structurally valid payload:
the unknown keys `id` / `verified` / `version` are stripped. -/
def parseSubmission (raw : RawSubmission) : ParkingZoneSubmission :=
  { name := raw.name
    center := raw.center
    radius := raw.radius
    country := raw.country
    region := raw.region }

/-- The `changes` object of a `ZoneUpdatePayload`
(`ParkingZone.omit({id, verified, version}).partial()`).  The `id`,
`verified` and `version` fields model keys a raw payload might carry;
the schema strips them, and the merge in `processUpdate` overrides them
regardless, which the theorems make explicit. -/
structure ZoneChanges where
  name : Option String
  center : Option LatLng
  radius : Option ℚ
  country : Option String
  region : Option String
  id : Option String
  verified : Option Bool
  version : Option Nat
deriving DecidableEq, Repr

/-- `Object.keys(changes).length === 0` on the validated changes object
(whose only possible keys are the five updatable fields). -/
def ZoneChanges.isEmpty (c : ZoneChanges) : Bool :=
  c.name.isNone && c.center.isNone && c.radius.isNone && c.country.isNone && c.region.isNone

/-- The merged record built by `processUpdate` step 4:
`{...existingZone, ...changes, id: existingZone.id, verified: existingZone.verified,
version: existingZone.version + 1}`.  Later keys of a JS object literal win,
so the trailing `id` / `verified` / `version` entries override anything the
spread of `changes` may have written. -/
def applyChanges (existingZone : ParkingZone) (changes : ZoneChanges) : ParkingZone :=
  { id := existingZone.id
    name := changes.name.getD existingZone.name
    center := changes.center.getD existingZone.center
    radius := changes.radius.getD existingZone.radius
    country := changes.country.getD existingZone.country
    region := changes.region.getD existingZone.region
    verified := existingZone.verified
    version := existingZone.version + 1 }

/-- One region shard (`CdnZoneIndex` schema): the per-(country, region)
zone file, with `zones` a geohash-keyed bucket map. -/
structure RegionShard where
  country : String
  region : String
  lastUpdated : String
  zoneCount : Nat
  zones : List (String × List ParkingZone)
deriving DecidableEq, Repr

/-- First bucket stored under key `g` (JS property read `zones[g]`). -/
def lookupBucket : List (String × List ParkingZone) → String → Option (List ParkingZone)
  | [], _ => none
  | (k, b) :: rest, g => if k = g then some b else lookupBucket rest g

/-- `zones[g][i]`, defaulting when absent (reads in the code only happen
at located, hence valid, positions). -/
def getAtBucket (zones : List (String × List ParkingZone)) (g : String) (i : Nat) : ParkingZone :=
  ((lookupBucket zones g).getD []).getD i default

/-- `if (!zones[g]) zones[g] = []; zones[g].push(z)`: push onto the
bucket at `g`, creating the key (at the end, JS insertion order) if absent. -/
def appendToBucket : List (String × List ParkingZone) → String → ParkingZone → List (String × List ParkingZone)
  | [], g, z => [(g, [z])]
  | (k, b) :: rest, g, z =>
    if k = g then (k, b ++ [z]) :: rest else (k, b) :: appendToBucket rest g z

/-- `zones[g][i] = z`: in-place replacement inside the bucket at `g`. -/
def setAtBucket : List (String × List ParkingZone) → String → Nat → ParkingZone → List (String × List ParkingZone)
  | [], _, _, _ => []
  | (k, b) :: rest, g, i, z =>
    if k = g then (k, b.set i z) :: rest else (k, b) :: setAtBucket rest g i z

/-- `zones[g].splice(i, 1); if (zones[g].length === 0) delete zones[g]`:
remove position `i` of the bucket at `g`, dropping the key if the bucket
becomes empty. -/
def removeAtBucket : List (String × List ParkingZone) → String → Nat → List (String × List ParkingZone)
  | [], _, _ => []
  | (k, b) :: rest, g, i =>
    if k = g then
      let b2 := b.eraseIdx i
      if b2 = [] then rest else (k, b2) :: rest
    else (k, b) :: removeAtBucket rest g i

/-- The zone-count recomputation loop of `processSubmission` step 7:
sum of the lengths of all buckets. -/
def sumBuckets (zones : List (String × List ParkingZone)) : Nat :=
  (zones.map (fun kb => kb.2.length)).sum

/-- Total number of records with the given id across all buckets. -/
def countId (zoneId : String) (zones : List (String × List ParkingZone)) : Nat :=
  (zones.map (fun kb => kb.2.countP (fun z => z.id = zoneId))).sum

/-- `bucket.findIndex((z) => z.id === zoneId)`, as an `Option Nat`. -/
def findIdxById (zoneId : String) : List ParkingZone → Option Nat
  | [] => none
  | z :: rest =>
    if z.id = zoneId then some 0 else (findIdxById zoneId rest).map (fun i => i + 1)

/-- The bucket scan of `processUpdate` step 3 inside one file: the first
bucket (in insertion order) containing the id, with the index inside it. -/
def findInZones (zoneId : String) : List (String × List ParkingZone) → Option (String × Nat)
  | [] => none
  | (g, b) :: rest =>
    match findIdxById zoneId b with
    | some i => some (g, i)
    | none => findInZones zoneId rest

/-- `generateZoneId` with the `crypto.randomUUID()` result lifted to the
`uuid` parameter. -/
def generateZoneId (country region uuid : String) : String :=
  "cdn-" ++ country ++ "-" ++ region ++ "-" ++ uuid

/-- `const fullZone = {...zone, id: zoneId, verified: false, version: 1}`. -/
def mkFullZone (zone : ParkingZoneSubmission) (zoneId : String) : ParkingZone :=
  { id := zoneId
    name := zone.name
    center := zone.center
    radius := zone.radius
    country := zone.country
    region := zone.region
    verified := false
    version := 1 }

/-- Steps 6 and 7 of `processSubmission` (the accepted path, after the
duplicate check): bucket the new record by the geohash of its center,
recompute `zoneCount`, stamp `lastUpdated`. -/
def processSubmission (gh : LatLng → String) (zone : ParkingZoneSubmission)
    (uuid now : String) (shard : RegionShard) : RegionShard :=
  let geohash := gh zone.center
  let zoneId := generateZoneId zone.country zone.region uuid
  let fullZone := mkFullZone zone zoneId
  let newZones := appendToBucket shard.zones geohash fullZone
  { shard with zones := newZones, zoneCount := sumBuckets newZones, lastUpdated := now }

/-- Step 4 of `processUpdate` applied to the shard in which the record
was located at bucket `foundGeohash`, index `foundIndex`: merge the
changes, recompute the bucket key when the center changed, relocate or
replace in place, stamp `lastUpdated`.  (`zoneCount` is not touched by
this code path.) -/
def applyUpdateToShard (gh : LatLng → String) (changes : ZoneChanges) (now : String)
    (shard : RegionShard) (foundGeohash : String) (foundIndex : Nat) : RegionShard :=
  let existingZone := getAtBucket shard.zones foundGeohash foundIndex
  let updatedZone := applyChanges existingZone changes
  let newGeohash :=
    match changes.center with
    | some _ => gh updatedZone.center
    | none => foundGeohash
  let newZones :=
    if newGeohash ≠ foundGeohash then
      appendToBucket (removeAtBucket shard.zones foundGeohash foundIndex) newGeohash updatedZone
    else
      setAtBucket shard.zones foundGeohash foundIndex updatedZone
  { shard with zones := newZones, lastUpdated := now }

/-- The file scan of `processUpdate` step 3: the first shard containing
the id is updated, all other shards are untouched; `none` when the id is
nowhere. -/
def updateShards (gh : LatLng → String) (changes : ZoneChanges) (now zoneId : String) :
    List RegionShard → Option (List RegionShard)
  | [] => none
  | shard :: rest =>
    match findInZones zoneId shard.zones with
    | some gi => some (applyUpdateToShard gh changes now shard gi.1 gi.2 :: rest)
    | none => (updateShards gh changes now zoneId rest).map (fun tl => shard :: tl)

/-- Outcome of `processUpdate` visible to the caller. -/
inductive UpdateStatus where
  | ok
  | notFound
  | emptyChanges
deriving DecidableEq, Repr

/-- `processUpdate`, state-passing form: the empty-changes guard, then the
locate-and-update scan.  On either failure the issue is closed without any
commit, so the shard state is returned unchanged. -/
def processUpdate (gh : LatLng → String) (zoneId : String) (changes : ZoneChanges)
    (now : String) (shards : List RegionShard) : UpdateStatus × List RegionShard :=
  if changes.isEmpty then (UpdateStatus.emptyChanges, shards)
  else
    match updateShards gh changes now zoneId shards with
    | some updated => (UpdateStatus.ok, updated)
    | none => (UpdateStatus.notFound, shards)

/-- Token set of `nameSimilarity`: lowercase, split on whitespace runs,
drop empties, deduplicate (`new Set`). -/
def nameTokens (s : String) : List String :=
  (((s.toLower).split (fun c => c.isWhitespace)).filter (fun t => t ≠ "")).dedup

/-- Jaccard similarity on lowercased whitespace-split token sets, exactly
as in `nameSimilarity` of `process-submission.mjs`. -/
def nameSimilarity (a b : String) : ℚ :=
  let tokensA := nameTokens a
  let tokensB := nameTokens b
  if tokensA.length = 0 ∧ tokensB.length = 0 then 1
  else if tokensA.length = 0 ∨ tokensB.length = 0 then 0
  else
    let inter := tokensA.countP (fun t => tokensB.contains t)
    let union := tokensA.length + tokensB.length - inter
    if union = 0 then 0 else (inter : ℚ) / (union : ℚ)

/-- The analytic primitives `distanceMeters` uses (`Math.sin`, `Math.cos`,
`Math.asin`, `Math.sqrt`, `Math.PI`), abstract because no computable exact
versions exist. -/
structure RealOps where
  sin : ℚ → ℚ
  cos : ℚ → ℚ
  asin : ℚ → ℚ
  sqrt : ℚ → ℚ
  pi : ℚ

/-- Haversine distance in meters, line for line from `distanceMeters`. -/
def distanceMeters (ops : RealOps) (a b : LatLng) : ℚ :=
  let R : ℚ := 6371000
  let dLat := (b.lat - a.lat) * ops.pi / 180
  let dLng := (b.lng - a.lng) * ops.pi / 180
  let sinLat := ops.sin (dLat / 2)
  let sinLng := ops.sin (dLng / 2)
  let h := sinLat * sinLat + ops.cos (a.lat * ops.pi / 180) * ops.cos (b.lat * ops.pi / 180) * sinLng * sinLng
  2 * R * ops.asin (ops.sqrt h)

/-- The per-record body of the `findDuplicate` scan: Rule A
(within 50 m and similar name), then Rule B (within 20 m, similar radius,
guarded by `maxRadius > 0`). -/
def findDupInBucket (ops : RealOps) (candidate : ParkingZoneSubmission) :
    List ParkingZone → Option ParkingZone
  | [] => none
  | zone :: rest =>
    let dist := distanceMeters ops candidate.center zone.center
    if dist ≤ 50 ∧ nameSimilarity candidate.name zone.name ≥ (0.6 : ℚ) then some zone
    else if dist ≤ 20 ∧ max candidate.radius zone.radius > 0 ∧
        |candidate.radius - zone.radius| / max candidate.radius zone.radius ≤ (0.3 : ℚ) then
      some zone
    else findDupInBucket ops candidate rest

/-- `findDuplicate(candidate, existingZones)`: scan every bucket of the
region in insertion order, returning the first record matching Rule A or
Rule B, else `null`. -/
def findDuplicate (ops : RealOps) (candidate : ParkingZoneSubmission) :
    List (String × List ParkingZone) → Option ParkingZone
  | [] => none
  | (_, bucket) :: rest =>
    match findDupInBucket ops candidate bucket with
    | some z => some z
    | none => findDuplicate ops candidate rest

/-- `Math.round` (ties toward positive infinity): `floor(q + 1/2)`. -/
def jsRound (q : ℚ) : ℤ :=
  ⌊q + 1 / 2⌋

/-- `Math.round(q * 10) / 10`: round to one decimal place. -/
def round1 (q : ℚ) : ℚ :=
  (jsRound (q * 10) : ℚ) / 10

/-- The bounding-box shape `{north, south, east, west}`. -/
structure Bbox where
  north : ℚ
  south : ℚ
  east : ℚ
  west : ℚ
deriving DecidableEq, Repr

/-- One step of the min/max sweep of `computeBbox`, with the four
independent `if` updates of the source. -/
def bboxFold (acc : ℚ × ℚ × ℚ × ℚ) (z : ParkingZone) : ℚ × ℚ × ℚ × ℚ :=
  ( if z.center.lat > acc.1 then z.center.lat else acc.1,
    if z.center.lat < acc.2.1 then z.center.lat else acc.2.1,
    if z.center.lng > acc.2.2.1 then z.center.lng else acc.2.2.1,
    if z.center.lng < acc.2.2.2 then z.center.lng else acc.2.2.2 )

/-- The bounding box of `manifest-utils.mjs`: sweep all records starting
from the sentinels `(-90, 90, -180, 180)`, pad by 0.05 degrees, round each
bound to one decimal. -/
def computeBbox (zones : List (String × List ParkingZone)) : Bbox :=
  let acc := zones.foldl (fun acc kb => kb.2.foldl bboxFold acc) ((-90 : ℚ), (90 : ℚ), (-180 : ℚ), (180 : ℚ))
  let pad : ℚ := 0.05
  { north := round1 (acc.1 + pad)
    south := round1 (acc.2.1 - pad)
    east := round1 (acc.2.2.1 + pad)
    west := round1 (acc.2.2.2 - pad) }

/-- One entry of the manifest `regions` array. -/
structure ManifestRegion where
  country : String
  region : String
  bbox : Bbox
  zoneCount : Nat
deriving DecidableEq, Repr

/-- The manifest artifact. -/
structure Manifest where
  regions : List ManifestRegion
  lastUpdated : String
deriving DecidableEq, Repr

/-- `buildManifest(zoneFiles)` from `manifest-utils.mjs`, with the
`new Date().toISOString()` stamp lifted to the `now` parameter. -/
def buildManifest (zoneFiles : List RegionShard) (now : String) : Manifest :=
  { regions := zoneFiles.map (fun d =>
      { country := d.country
        region := d.region
        bbox := computeBbox d.zones
        zoneCount := d.zoneCount })
    lastUpdated := now }

/-- All records of a region, flattening the buckets in insertion order. -/
def allRecords (zones : List (String × List ParkingZone)) : List ParkingZone :=
  (zones.map (fun kb => kb.2)).flatten

/-- Rule A of the duplicate detector, as in the code and the spec:
within 50 m and Jaccard name similarity at least 0.6. -/
def ruleA (ops : RealOps) (c : ParkingZoneSubmission) (z : ParkingZone) : Prop :=
  distanceMeters ops c.center z.center ≤ 50 ∧ nameSimilarity c.name z.name ≥ (0.6 : ℚ)

/-- Rule B as the code tests it: within 20 m, `maxRadius > 0`, and
relative radius difference at most 0.3. -/
def ruleBCode (ops : RealOps) (c : ParkingZoneSubmission) (z : ParkingZone) : Prop :=
  distanceMeters ops c.center z.center ≤ 20 ∧ 0 < max c.radius z.radius ∧
    |c.radius - z.radius| / max c.radius z.radius ≤ (0.3 : ℚ)

/-- Rule B as the spec words it: within 20 m and relative radius
difference at most 0.3, never firing when both radii are 0. -/
def ruleBSpec (ops : RealOps) (c : ParkingZoneSubmission) (z : ParkingZone) : Prop :=
  distanceMeters ops c.center z.center ≤ 20 ∧ ¬(c.radius = 0 ∧ z.radius = 0) ∧
    |c.radius - z.radius| / max c.radius z.radius ≤ (0.3 : ℚ)

/-! Sample inputs used by the witness theorems. -/

def sampleZone : ParkingZone :=
  { id := "cdn-NZ-auckland-0001"
    name := "Britomart Car Park"
    center := { lat := 1, lng := 2 }
    radius := 50
    country := "NZ"
    region := "auckland"
    verified := false
    version := 3 }

def sampleShard : RegionShard :=
  { country := "NZ"
    region := "auckland"
    lastUpdated := "2024-01-01"
    zoneCount := 1
    zones := [("gh1", [sampleZone])] }

def sampleChanges : ZoneChanges :=
  { name := some "Britomart Carpark"
    center := some { lat := 3, lng := 4 }
    radius := none
    country := none
    region := none
    id := some "evil-id"
    verified := some true
    version := some 99 }

def sampleGh : LatLng → String :=
  fun c => if c.lat ≤ 2 then "gh1" else "gh2"

def sampleOps : RealOps :=
  { sin := fun x => x
    cos := fun x => 1
    asin := fun x => x
    sqrt := fun x => x
    pi := 0 }

/-! Basic lemmas about the bucket operations. -/

@[simp]
theorem sumBuckets_nil : sumBuckets [] = 0 := rfl

@[simp]
theorem sumBuckets_cons (k : String) (b : List ParkingZone) (rest : List (String × List ParkingZone)) :
    sumBuckets ((k, b) :: rest) = b.length + sumBuckets rest := by
  simp [sumBuckets]

@[simp]
theorem countId_nil (zid : String) : countId zid [] = 0 := rfl

@[simp]
theorem countId_cons (zid : String) (k : String) (b : List ParkingZone)
    (rest : List (String × List ParkingZone)) :
    countId zid ((k, b) :: rest) = b.countP (fun z => z.id = zid) + countId zid rest := by
  simp [countId]

theorem lookupBucket_appendToBucket_self (zs : List (String × List ParkingZone)) (g : String) (z : ParkingZone) :
    lookupBucket (appendToBucket zs g z) g = some ((lookupBucket zs g).getD [] ++ [z]) := by
  induction zs with
  | nil => simp [appendToBucket, lookupBucket]
  | cons kb rest ih =>
    obtain ⟨k, b⟩ := kb
    by_cases h : k = g
    · subst h
      simp [appendToBucket, lookupBucket]
    · simp [appendToBucket, lookupBucket, h, ih]

theorem lookupBucket_appendToBucket_ne (zs : List (String × List ParkingZone)) (g g2 : String)
    (z : ParkingZone) (h : g2 ≠ g) :
    lookupBucket (appendToBucket zs g z) g2 = lookupBucket zs g2 := by
  induction zs with
  | nil => simp [appendToBucket, lookupBucket, Ne.symm h]
  | cons kb rest ih =>
    obtain ⟨k, b⟩ := kb
    by_cases hk : k = g
    · subst hk
      simp [appendToBucket, lookupBucket, Ne.symm h]
    · simp [appendToBucket, lookupBucket, hk, ih]

theorem sumBuckets_appendToBucket (zs : List (String × List ParkingZone)) (g : String) (z : ParkingZone) :
    sumBuckets (appendToBucket zs g z) = sumBuckets zs + 1 := by
  induction zs with
  | nil => simp [appendToBucket]
  | cons kb rest ih =>
    obtain ⟨k, b⟩ := kb
    by_cases h : k = g
    · subst h
      simp [appendToBucket]
      omega
    · simp [appendToBucket, h, ih]
      omega

theorem countId_appendToBucket (zs : List (String × List ParkingZone)) (g zid : String) (z : ParkingZone) :
    countId zid (appendToBucket zs g z) = countId zid zs + (if z.id = zid then 1 else 0) := by
  induction zs with
  | nil => simp [appendToBucket, List.countP_cons]
  | cons kb rest ih =>
    obtain ⟨k, b⟩ := kb
    by_cases h : k = g
    · subst h
      simp [appendToBucket, List.countP_append, List.countP_cons]
      omega
    · simp [appendToBucket, h, ih]
      omega

theorem sumBuckets_setAtBucket (zs : List (String × List ParkingZone)) (g : String) (i : Nat) (z : ParkingZone) :
    sumBuckets (setAtBucket zs g i z) = sumBuckets zs := by
  induction zs with
  | nil => simp [setAtBucket]
  | cons kb rest ih =>
    obtain ⟨k, b⟩ := kb
    by_cases h : k = g
    · subst h
      simp [setAtBucket]
    · simp [setAtBucket, h, ih]

theorem lookupBucket_setAtBucket_self (zs : List (String × List ParkingZone)) (g : String)
    (i : Nat) (z : ParkingZone) (b : List ParkingZone) (h : lookupBucket zs g = some b) :
    lookupBucket (setAtBucket zs g i z) g = some (b.set i z) := by
  induction zs with
  | nil => simp [lookupBucket] at h
  | cons kb rest ih =>
    obtain ⟨k, b0⟩ := kb
    by_cases hk : k = g
    · subst hk
      simp [lookupBucket] at h
      subst h
      simp [setAtBucket, lookupBucket]
    · simp [lookupBucket, hk] at h
      simp [setAtBucket, lookupBucket, hk, ih h]

theorem length_eraseIdx_add_one {α : Type} (l : List α) (i : Nat) (h : i < l.length) :
    (l.eraseIdx i).length + 1 = l.length := by
  induction l generalizing i with
  | nil => simp at h
  | cons x xs ih =>
    cases i with
    | zero => simp [List.eraseIdx]
    | succ j =>
      simp only [List.eraseIdx, List.length_cons]
      have hj : j < xs.length := by simpa using h
      have := ih j hj
      omega


theorem findIdxById_lt_length (zid : String) (b : List ParkingZone) (i : Nat)
    (h : findIdxById zid b = some i) : i < b.length := by
  induction b generalizing i with
  | nil => simp [findIdxById] at h
  | cons z rest ih =>
    by_cases hz : z.id = zid
    · simp only [findIdxById, if_pos hz, Option.some.injEq] at h
      simp only [List.length_cons]
      omega
    · simp only [findIdxById, if_neg hz, Option.map_eq_some'] at h
      obtain ⟨j, hj, rfl⟩ := h
      have := ih j hj
      simp only [List.length_cons]
      omega

theorem findIdxById_getD (zid : String) (b : List ParkingZone) (i : Nat)
    (h : findIdxById zid b = some i) : (b.getD i default).id = zid := by
  induction b generalizing i with
  | nil => simp [findIdxById] at h
  | cons z rest ih =>
    by_cases hz : z.id = zid
    · simp only [findIdxById, if_pos hz, Option.some.injEq] at h
      subst h
      simpa using hz
    · simp only [findIdxById, if_neg hz, Option.map_eq_some'] at h
      obtain ⟨j, hj, rfl⟩ := h
      simpa using ih j hj

theorem countP_eraseIdx_findIdxById (zid : String) (b : List ParkingZone) (i : Nat)
    (h : findIdxById zid b = some i) :
    (b.eraseIdx i).countP (fun z => z.id = zid) + 1 = b.countP (fun z => z.id = zid) := by
  induction b generalizing i with
  | nil => simp [findIdxById] at h
  | cons z rest ih =>
    by_cases hz : z.id = zid
    · simp only [findIdxById, if_pos hz, Option.some.injEq] at h
      subst h
      simp [List.eraseIdx, List.countP_cons, hz]
    · simp only [findIdxById, if_neg hz, Option.map_eq_some'] at h
      obtain ⟨j, hj, rfl⟩ := h
      simp only [List.eraseIdx, List.countP_cons, hz]
      have := ih j hj
      simp only [decide_False]
      omega

theorem findIdxById_eq_none (zid : String) (b : List ParkingZone)
    (h : ∀ z ∈ b, z.id ≠ zid) : findIdxById zid b = none := by
  induction b with
  | nil => rfl
  | cons z rest ih =>
    have hz : z.id ≠ zid := h z (by simp)
    simp only [findIdxById, if_neg hz, Option.map_eq_none']
    exact ih (fun w hw => h w (by simp [hw]))

theorem lookupBucket_mem (zs : List (String × List ParkingZone)) (g : String)
    (b : List ParkingZone) (h : lookupBucket zs g = some b) : (g, b) ∈ zs := by
  induction zs with
  | nil => simp [lookupBucket] at h
  | cons kb rest ih =>
    obtain ⟨k, b0⟩ := kb
    by_cases hk : k = g
    · subst hk
      simp [lookupBucket] at h
      subst h
      simp
    · simp only [lookupBucket, if_neg hk] at h
      simp [ih h]

theorem lookupBucket_mem_keys (zs : List (String × List ParkingZone)) (g : String)
    (b : List ParkingZone) (h : lookupBucket zs g = some b) : g ∈ zs.map Prod.fst :=
  List.mem_map.mpr ⟨(g, b), lookupBucket_mem zs g b h, rfl⟩

theorem lookupBucket_eq_none_of_not_mem (zs : List (String × List ParkingZone)) (g : String)
    (h : g ∉ zs.map Prod.fst) : lookupBucket zs g = none := by
  cases hb : lookupBucket zs g with
  | none => rfl
  | some b => exact absurd (lookupBucket_mem_keys zs g b hb) h

theorem findInZones_some (zid : String) (zs : List (String × List ParkingZone))
    (g : String) (i : Nat) (hnd : (zs.map Prod.fst).Nodup)
    (h : findInZones zid zs = some (g, i)) :
    ∃ b, lookupBucket zs g = some b ∧ findIdxById zid b = some i := by
  induction zs with
  | nil => simp [findInZones] at h
  | cons kb rest ih =>
    obtain ⟨k, b0⟩ := kb
    cases hf : findIdxById zid b0 with
    | some j =>
      simp only [findInZones, hf, Option.some.injEq, Prod.mk.injEq] at h
      obtain ⟨rfl, rfl⟩ := h
      exact ⟨b0, by simp [lookupBucket], hf⟩
    | none =>
      simp only [findInZones, hf] at h
      have hnd2 : (rest.map Prod.fst).Nodup := (List.nodup_cons.mp (by simpa using hnd)).2
      obtain ⟨b, hb, hfi⟩ := ih hnd2 h
      have hkg : k ≠ g := by
        intro hkg
        subst hkg
        exact (List.nodup_cons.mp (by simpa using hnd)).1 (lookupBucket_mem_keys rest k b hb)
      exact ⟨b, by simp [lookupBucket, hkg, hb], hfi⟩

theorem sumBuckets_removeAtBucket (zs : List (String × List ParkingZone)) (g : String)
    (i : Nat) (b : List ParkingZone) (hb : lookupBucket zs g = some b) (hi : i < b.length) :
    sumBuckets (removeAtBucket zs g i) + 1 = sumBuckets zs := by
  induction zs with
  | nil => simp [lookupBucket] at hb
  | cons kb rest ih =>
    obtain ⟨k, b0⟩ := kb
    by_cases hk : k = g
    · subst hk
      have hb2 : b = b0 := by
        have h3 := hb
        simp [lookupBucket] at h3
        exact h3.symm
      subst hb2
      have hlen := length_eraseIdx_add_one b i hi
      by_cases he : b.eraseIdx i = []
      · simp [removeAtBucket, he]
        simp [he] at hlen
        omega
      · simp [removeAtBucket, he]
        omega
    · simp only [lookupBucket, if_neg hk] at hb
      simp [removeAtBucket, hk, sumBuckets_cons]
      have := ih hb
      omega

theorem countId_removeAtBucket (zs : List (String × List ParkingZone)) (g zid : String)
    (i : Nat) (b : List ParkingZone) (hb : lookupBucket zs g = some b)
    (hf : findIdxById zid b = some i) :
    countId zid (removeAtBucket zs g i) + 1 = countId zid zs := by
  induction zs with
  | nil => simp [lookupBucket] at hb
  | cons kb rest ih =>
    obtain ⟨k, b0⟩ := kb
    by_cases hk : k = g
    · subst hk
      have hb2 : b = b0 := by
        have h3 := hb
        simp [lookupBucket] at h3
        exact h3.symm
      subst hb2
      have hcount := countP_eraseIdx_findIdxById zid b i hf
      by_cases he : b.eraseIdx i = []
      · simp [removeAtBucket, he]
        simp [he] at hcount
        omega
      · simp [removeAtBucket, he]
        omega
    · simp only [lookupBucket, if_neg hk] at hb
      simp [removeAtBucket, hk, countId_cons]
      have := ih hb
      omega

theorem lookupBucket_removeAtBucket_self_empty (zs : List (String × List ParkingZone))
    (g : String) (i : Nat) (b : List ParkingZone) (hnd : (zs.map Prod.fst).Nodup)
    (hb : lookupBucket zs g = some b) (he : b.eraseIdx i = []) :
    lookupBucket (removeAtBucket zs g i) g = none := by
  induction zs with
  | nil => simp [lookupBucket] at hb
  | cons kb rest ih =>
    obtain ⟨k, b0⟩ := kb
    by_cases hk : k = g
    · subst hk
      simp [lookupBucket] at hb
      subst hb
      simp [removeAtBucket, he]
      exact lookupBucket_eq_none_of_not_mem rest k (List.nodup_cons.mp (by simpa using hnd)).1
    · simp only [lookupBucket, if_neg hk] at hb
      have hnd2 : (rest.map Prod.fst).Nodup := (List.nodup_cons.mp (by simpa using hnd)).2
      simp [removeAtBucket, hk, lookupBucket, ih hnd2 hb]

theorem mem_set_self {α : Type} (l : List α) (i : Nat) (z : α) (h : i < l.length) :
    z ∈ l.set i z := by
  induction l generalizing i with
  | nil => simp at h
  | cons x xs ih =>
    cases i with
    | zero => simp [List.set]
    | succ j =>
      have hj : j < xs.length := by simpa using h
      simp only [List.set]
      exact List.mem_cons_of_mem x (ih j hj)

theorem findInZones_eq_none (zid : String) (zs : List (String × List ParkingZone))
    (h : ∀ kb ∈ zs, ∀ z ∈ kb.2, z.id ≠ zid) : findInZones zid zs = none := by
  induction zs with
  | nil => rfl
  | cons kb rest ih =>
    obtain ⟨k, b⟩ := kb
    have hb : findIdxById zid b = none :=
      findIdxById_eq_none zid b (fun z hz => h (k, b) (by simp) z hz)
    simp only [findInZones, hb]
    exact ih (fun kb2 hkb2 => h kb2 (by simp [hkb2]))

theorem updateShards_eq_none (gh : LatLng → String) (changes : ZoneChanges)
    (now zid : String) (shards : List RegionShard)
    (h : ∀ s ∈ shards, findInZones zid s.zones = none) :
    updateShards gh changes now zid shards = none := by
  induction shards with
  | nil => rfl
  | cons s rest ih =>
    have hs : findInZones zid s.zones = none := h s (by simp)
    simp only [updateShards, hs, Option.map_eq_none']
    exact ih (fun s2 hs2 => h s2 (by simp [hs2]))

theorem getAtBucket_eq (zs : List (String × List ParkingZone)) (g : String) (i : Nat)
    (b : List ParkingZone) (hb : lookupBucket zs g = some b) :
    getAtBucket zs g i = b.getD i default := by
  simp [getAtBucket, hb]

theorem applyUpdateToShard_zoneCount (gh : LatLng → String) (changes : ZoneChanges)
    (now : String) (shard : RegionShard) (g : String) (i : Nat) :
    (applyUpdateToShard gh changes now shard g i).zoneCount = shard.zoneCount := by
  simp [applyUpdateToShard]

/-- C1: if a shard satisfies the zone-count invariant
(`zoneCount` equals the sum of all bucket lengths), then it satisfies it
again after the accepted create path of `processSubmission` and after the
accepted update path of `processUpdate` (in-place replacement as well as
bucket relocation). -/
theorem zoneCount_eq_sumBuckets_after_ops
    (gh : LatLng → String) (sub : ParkingZoneSubmission) (uuid now : String)
    (changes : ZoneChanges) (zid : String) (shard : RegionShard)
    (hinv : shard.zoneCount = sumBuckets shard.zones) :
    (processSubmission gh sub uuid now shard).zoneCount
        = sumBuckets (processSubmission gh sub uuid now shard).zones
    ∧ (∀ g i, (shard.zones.map Prod.fst).Nodup →
        findInZones zid shard.zones = some (g, i) →
        (applyUpdateToShard gh changes now shard g i).zoneCount
          = sumBuckets (applyUpdateToShard gh changes now shard g i).zones) := by
  constructor
  · simp [processSubmission]
  · intro g i hnd hfind
    obtain ⟨b, hb, hf⟩ := findInZones_some zid shard.zones g i hnd hfind
    have hi : i < b.length := findIdxById_lt_length zid b i hf
    have hrem := sumBuckets_removeAtBucket shard.zones g i b hb hi
    rw [applyUpdateToShard_zoneCount, hinv]
    simp only [applyUpdateToShard]
    by_cases hng : (match changes.center with
        | some _ => gh (applyChanges (getAtBucket shard.zones g i) changes).center
        | none => g) ≠ g
    · simp only [if_pos hng]
      rw [sumBuckets_appendToBucket]
      omega
    · simp only [if_neg hng]
      rw [sumBuckets_setAtBucket]

theorem mem_appendToBucket (zs : List (String × List ParkingZone)) (g : String) (z : ParkingZone) :
    ∃ kb ∈ appendToBucket zs g z, z ∈ kb.2 := by
  refine ⟨(g, (lookupBucket zs g).getD [] ++ [z]), ?_, by simp⟩
  exact lookupBucket_mem _ _ _ (lookupBucket_appendToBucket_self zs g z)

theorem mem_setAtBucket (zs : List (String × List ParkingZone)) (g : String) (i : Nat)
    (z : ParkingZone) (b : List ParkingZone) (hb : lookupBucket zs g = some b)
    (hi : i < b.length) : ∃ kb ∈ setAtBucket zs g i z, z ∈ kb.2 := by
  refine ⟨(g, b.set i z), ?_, mem_set_self b i z hi⟩
  exact lookupBucket_mem _ _ _ (lookupBucket_setAtBucket_self zs g i z b hb)

/-- C4: the record stored by an accepted update has version
`oldVersion + 1`, keeps the pre-update `id` and `verified` regardless of
any such entries in the changes payload, and merges every other changed
field onto the existing record. -/
theorem update_version_bump_and_frame
    (gh : LatLng → String) (changes : ZoneChanges) (now zid : String)
    (shard : RegionShard) (g : String) (i : Nat)
    (hnd : (shard.zones.map Prod.fst).Nodup)
    (hfind : findInZones zid shard.zones = some (g, i)) :
    ∃ stored, (∃ kb ∈ (applyUpdateToShard gh changes now shard g i).zones, stored ∈ kb.2)
      ∧ stored.id = (getAtBucket shard.zones g i).id
      ∧ stored.verified = (getAtBucket shard.zones g i).verified
      ∧ stored.version = (getAtBucket shard.zones g i).version + 1
      ∧ stored.name = changes.name.getD (getAtBucket shard.zones g i).name
      ∧ stored.center = changes.center.getD (getAtBucket shard.zones g i).center
      ∧ stored.radius = changes.radius.getD (getAtBucket shard.zones g i).radius
      ∧ stored.country = changes.country.getD (getAtBucket shard.zones g i).country
      ∧ stored.region = changes.region.getD (getAtBucket shard.zones g i).region := by
  obtain ⟨b, hb, hf⟩ := findInZones_some zid shard.zones g i hnd hfind
  have hi : i < b.length := findIdxById_lt_length zid b i hf
  refine ⟨applyChanges (getAtBucket shard.zones g i) changes, ?_, rfl, rfl, rfl, rfl, rfl, rfl, rfl, rfl⟩
  simp only [applyUpdateToShard]
  by_cases hng : (match changes.center with
      | some _ => gh (applyChanges (getAtBucket shard.zones g i) changes).center
      | none => g) ≠ g
  · simp only [if_pos hng]
    exact mem_appendToBucket _ _ _
  · simp only [if_neg hng]
    exact mem_setAtBucket _ _ _ _ b hb hi

/-- C2: an accepted update whose new center lands in a different
precision-6 bucket leaves exactly one occurrence of the record's id in the
whole shard, and the old bucket is deleted when its removal left it
empty. -/
theorem relocation_exactly_one_bucket
    (gh : LatLng → String) (changes : ZoneChanges) (now zid : String)
    (shard : RegionShard) (g : String) (i : Nat) (cNew : LatLng)
    (hnd : (shard.zones.map Prod.fst).Nodup)
    (hfind : findInZones zid shard.zones = some (g, i))
    (huniq : countId zid shard.zones = 1)
    (hcen : changes.center = some cNew)
    (hmove : gh cNew ≠ g) :
    countId zid (applyUpdateToShard gh changes now shard g i).zones = 1
    ∧ (∀ b, lookupBucket shard.zones g = some b → b.eraseIdx i = [] →
        lookupBucket (applyUpdateToShard gh changes now shard g i).zones g = none) := by
  obtain ⟨b, hb, hf⟩ := findInZones_some zid shard.zones g i hnd hfind
  have hi : i < b.length := findIdxById_lt_length zid b i hf
  have hid : (getAtBucket shard.zones g i).id = zid := by
    rw [getAtBucket_eq shard.zones g i b hb]
    exact findIdxById_getD zid b i hf
  have hzid : (applyChanges (getAtBucket shard.zones g i) changes).id = zid := hid
  have hzones : (applyUpdateToShard gh changes now shard g i).zones
      = appendToBucket (removeAtBucket shard.zones g i) (gh cNew)
          (applyChanges (getAtBucket shard.zones g i) changes) := by
    simp only [applyUpdateToShard, hcen]
    have hcenter : (applyChanges (getAtBucket shard.zones g i) changes).center = cNew := by
      simp [applyChanges, hcen]
    simp [hcenter, hmove]
  constructor
  · rw [hzones, countId_appendToBucket]
    have hrm := countId_removeAtBucket shard.zones g zid i b hb hf
    rw [hzid, if_pos rfl]
    omega
  · intro b2 hb2 he2
    have hb2b : b2 = b := by
      rw [hb] at hb2
      exact (Option.some.inj hb2).symm
    subst hb2b
    rw [hzones, lookupBucket_appendToBucket_ne _ _ _ _ (Ne.symm hmove)]
    exact lookupBucket_removeAtBucket_self_empty shard.zones g i b2 hnd hb he2

/-- C8: an update whose id matches no record in any bucket of any shard
fails with a not-found status and leaves every shard unchanged. -/
theorem update_unknown_id_notFound
    (gh : LatLng → String) (zid : String) (changes : ZoneChanges) (now : String)
    (shards : List RegionShard)
    (hne : changes.isEmpty = false)
    (habs : ∀ s ∈ shards, ∀ kb ∈ s.zones, ∀ z ∈ kb.2, z.id ≠ zid) :
    processUpdate gh zid changes now shards = (UpdateStatus.notFound, shards) := by
  have hnone : updateShards gh changes now zid shards = none :=
    updateShards_eq_none gh changes now zid shards
      (fun s hs => findInZones_eq_none zid s.zones (habs s hs))
  simp [processUpdate, hne, hnone]

/-- C5: an accepted submission is stored with `verified = false`,
`version = 1` and the system-generated id, for every raw payload,
whatever `id` / `verified` / `version` values the submitter included. -/
theorem submission_stores_system_fields
    (gh : LatLng → String) (raw : RawSubmission) (uuid now : String) (shard : RegionShard) :
    ∃ b, lookupBucket (processSubmission gh (parseSubmission raw) uuid now shard).zones
          (gh (parseSubmission raw).center) = some b
      ∧ b.getLast? = some (mkFullZone (parseSubmission raw) (generateZoneId raw.country raw.region uuid))
      ∧ (mkFullZone (parseSubmission raw) (generateZoneId raw.country raw.region uuid)).verified = false
      ∧ (mkFullZone (parseSubmission raw) (generateZoneId raw.country raw.region uuid)).version = 1
      ∧ (mkFullZone (parseSubmission raw) (generateZoneId raw.country raw.region uuid)).id
          = generateZoneId raw.country raw.region uuid := by
  refine ⟨(lookupBucket shard.zones (gh (parseSubmission raw).center)).getD []
      ++ [mkFullZone (parseSubmission raw) (generateZoneId raw.country raw.region uuid)],
    ?_, by simp, rfl, rfl, rfl⟩
  simp only [processSubmission]
  exact lookupBucket_appendToBucket_self shard.zones _ _

/-- C6: the manifest builder is deterministic up to its timestamp, each
entry copies `{country, region, bbox, zoneCount}` from the corresponding
shard, and the region order mirrors the input shard order. -/
theorem buildManifest_deterministic_ordered (shards : List RegionShard) (t1 t2 : String) :
    (buildManifest shards t1).regions = (buildManifest shards t2).regions
    ∧ (buildManifest shards t1).regions.length = shards.length
    ∧ ∀ i : Nat, (buildManifest shards t1).regions[i]?
        = (shards[i]?).map (fun d =>
            { country := d.country
              region := d.region
              bbox := computeBbox d.zones
              zoneCount := d.zoneCount }) := by
  refine ⟨rfl, by simp [buildManifest], ?_⟩
  intro i
  simp [buildManifest]

/-- C9: the haversine distance is zero on equal inputs and symmetric,
for any interpretation of the analytic primitives in which sine is odd
and square root and arcsine vanish at zero. -/
theorem distanceMeters_self_zero_and_symm (ops : RealOps)
    (hodd : ∀ x : ℚ, ops.sin (-x) = -ops.sin x)
    (hsqrt : ops.sqrt 0 = 0) (hasin : ops.asin 0 = 0) :
    ∀ a b : LatLng, distanceMeters ops a a = 0
      ∧ distanceMeters ops a b = distanceMeters ops b a := by
  have hsin0 : ops.sin 0 = 0 := by
    have h := hodd 0
    rw [neg_zero] at h
    linarith
  intro a b
  constructor
  · simp [distanceMeters, hsin0, hsqrt, hasin]
  · have key : ∀ x y : ℚ, ops.sin ((x - y) * ops.pi / 180 / 2)
        = -ops.sin ((y - x) * ops.pi / 180 / 2) := by
      intro x y
      have hneg : (x - y) * ops.pi / 180 / 2 = -((y - x) * ops.pi / 180 / 2) := by ring
      rw [hneg, hodd]
    simp only [distanceMeters]
    congr 1
    congr 1
    congr 1
    rw [key b.lat a.lat, key b.lng a.lng]
    ring

theorem bboxSweep_all_empty (zones : List (String × List ParkingZone))
    (init : ℚ × ℚ × ℚ × ℚ) (h : ∀ kb ∈ zones, kb.2 = []) :
    zones.foldl (fun acc kb => kb.2.foldl bboxFold acc) init = init := by
  induction zones generalizing init with
  | nil => rfl
  | cons kb rest ih =>
    have hkb : kb.2 = [] := h kb (by simp)
    rw [List.foldl_cons, hkb]
    exact ih init (fun kb2 hkb2 => h kb2 (by simp [hkb2]))

/-- C10: on a zones mapping with no records at all, `computeBbox` does
not fail: it returns the padded, rounded sentinel box, which is inverted
(north below south and east below west). -/
theorem computeBbox_no_records (zones : List (String × List ParkingZone))
    (h : ∀ kb ∈ zones, kb.2 = []) :
    computeBbox zones = { north := -899/10, south := 90, east := -1799/10, west := 180 }
    ∧ (computeBbox zones).north < (computeBbox zones).south
    ∧ (computeBbox zones).east < (computeBbox zones).west := by
  have hs := bboxSweep_all_empty zones ((-90 : ℚ), (90 : ℚ), (-180 : ℚ), (180 : ℚ)) h
  have heq : computeBbox zones
      = { north := -899/10, south := 90, east := -1799/10, west := 180 } := by
    simp only [computeBbox, hs, round1, jsRound, Bbox.mk.injEq]
    norm_num
  refine ⟨heq, ?_, ?_⟩ <;> rw [heq] <;> norm_num

theorem bboxSweep_eq_allRecords (zones : List (String × List ParkingZone))
    (init : ℚ × ℚ × ℚ × ℚ) :
    zones.foldl (fun acc kb => kb.2.foldl bboxFold acc) init
      = (allRecords zones).foldl bboxFold init := by
  induction zones generalizing init with
  | nil => rfl
  | cons kb rest ih =>
    simp only [allRecords, List.map_cons, List.flatten_cons, List.foldl_append, List.foldl_cons]
    exact ih (kb.2.foldl bboxFold init)

theorem foldl_bboxFold_split (l : List ParkingZone) (n s e w : ℚ) :
    l.foldl bboxFold (n, s, e, w)
      = ((l.map (fun z => z.center.lat)).foldl max n,
         (l.map (fun z => z.center.lat)).foldl min s,
         (l.map (fun z => z.center.lng)).foldl max e,
         (l.map (fun z => z.center.lng)).foldl min w) := by
  induction l generalizing n s e w with
  | nil => rfl
  | cons z rest ih =>
    have hmax : ∀ a x : ℚ, (if x > a then x else a) = max a x := by
      intro a x
      rcases lt_or_ge a x with h | h
      · rw [if_pos h, max_eq_right (le_of_lt h)]
      · rw [if_neg (not_lt.mpr h), max_eq_left h]
    have hmin : ∀ a x : ℚ, (if x < a then x else a) = min a x := by
      intro a x
      rcases lt_or_ge x a with h | h
      · rw [if_pos h, min_eq_right (le_of_lt h)]
      · rw [if_neg (not_lt.mpr h), min_eq_left h]
    have hstep : bboxFold (n, s, e, w) z
        = (max n z.center.lat, min s z.center.lat, max e z.center.lng, min w z.center.lng) := by
      simp only [bboxFold, hmax, hmin]
    rw [List.foldl_cons, hstep, ih]
    rfl

theorem le_foldl_max (l : List ℚ) (n : ℚ) : n ≤ l.foldl max n := by
  induction l generalizing n with
  | nil => simp
  | cons x xs ih => exact le_trans (le_max_left n x) (ih (max n x))

theorem foldl_min_le (l : List ℚ) (n : ℚ) : l.foldl min n ≤ n := by
  induction l generalizing n with
  | nil => simp
  | cons x xs ih => exact le_trans (ih (min n x)) (min_le_left n x)

theorem mem_le_foldl_max : ∀ (l : List ℚ) (n x : ℚ), x ∈ l → x ≤ l.foldl max n
  | [], _, _, h => absurd h (List.not_mem_nil _)
  | y :: ys, n, x, h => by
    rcases List.mem_cons.mp h with rfl | h2
    · exact le_trans (le_max_right n x) (le_foldl_max ys (max n x))
    · exact mem_le_foldl_max ys (max n y) x h2

theorem foldl_min_le_mem : ∀ (l : List ℚ) (n x : ℚ), x ∈ l → l.foldl min n ≤ x
  | [], _, _, h => absurd h (List.not_mem_nil _)
  | y :: ys, n, x, h => by
    rcases List.mem_cons.mp h with rfl | h2
    · exact le_trans (foldl_min_le ys (min n x)) (min_le_right n x)
    · exact foldl_min_le_mem ys (min n y) x h2

theorem foldl_max_mem_or (l : List ℚ) (n : ℚ) : l.foldl max n ∈ l ∨ l.foldl max n = n := by
  induction l generalizing n with
  | nil => exact Or.inr rfl
  | cons x xs ih =>
    rcases ih (max n x) with h | h
    · exact Or.inl (List.mem_cons_of_mem x h)
    · rcases max_choice n x with h2 | h2
      · right
        rw [List.foldl_cons, h, h2]
      · left
        rw [List.foldl_cons, h, h2]
        exact List.mem_cons_self x xs

theorem foldl_min_mem_or (l : List ℚ) (n : ℚ) : l.foldl min n ∈ l ∨ l.foldl min n = n := by
  induction l generalizing n with
  | nil => exact Or.inr rfl
  | cons x xs ih =>
    rcases ih (min n x) with h | h
    · exact Or.inl (List.mem_cons_of_mem x h)
    · rcases min_choice n x with h2 | h2
      · right
        rw [List.foldl_cons, h, h2]
      · left
        rw [List.foldl_cons, h, h2]
        exact List.mem_cons_self x xs

theorem foldl_max_mem (l : List ℚ) (n : ℚ) (hne : l ≠ []) (hb : ∀ x ∈ l, n ≤ x) :
    l.foldl max n ∈ l := by
  rcases foldl_max_mem_or l n with h | h
  · exact h
  · obtain ⟨y, hy⟩ := List.exists_mem_of_ne_nil l hne
    have h1 : y ≤ l.foldl max n := mem_le_foldl_max l n y hy
    rw [h] at h1
    have h3 : y = n := le_antisymm h1 (hb y hy)
    rw [h, ← h3]
    exact hy

theorem foldl_min_mem (l : List ℚ) (n : ℚ) (hne : l ≠ []) (hb : ∀ x ∈ l, x ≤ n) :
    l.foldl min n ∈ l := by
  rcases foldl_min_mem_or l n with h | h
  · exact h
  · obtain ⟨y, hy⟩ := List.exists_mem_of_ne_nil l hne
    have h1 : l.foldl min n ≤ y := foldl_min_le_mem l n y hy
    rw [h] at h1
    have h3 : y = n := le_antisymm (hb y hy) h1
    rw [h, ← h3]
    exact hy

/-- C7: on a shard with at least one record (coordinates in range),
`computeBbox` returns the maxima of the centers' latitude/longitude as
north/east and the minima as south/west, each padded outward by 0.05
degrees and rounded to one decimal place. -/
theorem computeBbox_padded_extrema (zones : List (String × List ParkingZone))
    (hne : allRecords zones ≠ [])
    (hlat : ∀ z ∈ allRecords zones, -90 ≤ z.center.lat ∧ z.center.lat ≤ 90)
    (hlng : ∀ z ∈ allRecords zones, -180 ≤ z.center.lng ∧ z.center.lng ≤ 180) :
    ∃ latMax ∈ (allRecords zones).map (fun z => z.center.lat),
    ∃ latMin ∈ (allRecords zones).map (fun z => z.center.lat),
    ∃ lngMax ∈ (allRecords zones).map (fun z => z.center.lng),
    ∃ lngMin ∈ (allRecords zones).map (fun z => z.center.lng),
      (∀ x ∈ (allRecords zones).map (fun z => z.center.lat), x ≤ latMax)
      ∧ (∀ x ∈ (allRecords zones).map (fun z => z.center.lat), latMin ≤ x)
      ∧ (∀ x ∈ (allRecords zones).map (fun z => z.center.lng), x ≤ lngMax)
      ∧ (∀ x ∈ (allRecords zones).map (fun z => z.center.lng), lngMin ≤ x)
      ∧ computeBbox zones
          = { north := round1 (latMax + 0.05)
              south := round1 (latMin - 0.05)
              east := round1 (lngMax + 0.05)
              west := round1 (lngMin - 0.05) } := by
  have hlats_ne : (allRecords zones).map (fun z => z.center.lat) ≠ [] := by
    simpa using hne
  have hlngs_ne : (allRecords zones).map (fun z => z.center.lng) ≠ [] := by
    simpa using hne
  have hlat_lo : ∀ x ∈ (allRecords zones).map (fun z => z.center.lat), (-90 : ℚ) ≤ x := by
    intro x hx
    obtain ⟨z, hz, rfl⟩ := List.mem_map.mp hx
    exact (hlat z hz).1
  have hlat_hi : ∀ x ∈ (allRecords zones).map (fun z => z.center.lat), x ≤ (90 : ℚ) := by
    intro x hx
    obtain ⟨z, hz, rfl⟩ := List.mem_map.mp hx
    exact (hlat z hz).2
  have hlng_lo : ∀ x ∈ (allRecords zones).map (fun z => z.center.lng), (-180 : ℚ) ≤ x := by
    intro x hx
    obtain ⟨z, hz, rfl⟩ := List.mem_map.mp hx
    exact (hlng z hz).1
  have hlng_hi : ∀ x ∈ (allRecords zones).map (fun z => z.center.lng), x ≤ (180 : ℚ) := by
    intro x hx
    obtain ⟨z, hz, rfl⟩ := List.mem_map.mp hx
    exact (hlng z hz).2
  refine ⟨((allRecords zones).map (fun z => z.center.lat)).foldl max (-90),
    foldl_max_mem _ _ hlats_ne hlat_lo,
    ((allRecords zones).map (fun z => z.center.lat)).foldl min 90,
    foldl_min_mem _ _ hlats_ne hlat_hi,
    ((allRecords zones).map (fun z => z.center.lng)).foldl max (-180),
    foldl_max_mem _ _ hlngs_ne hlng_lo,
    ((allRecords zones).map (fun z => z.center.lng)).foldl min 180,
    foldl_min_mem _ _ hlngs_ne hlng_hi,
    fun x hx => mem_le_foldl_max _ _ x hx,
    fun x hx => foldl_min_le_mem _ _ x hx,
    fun x hx => mem_le_foldl_max _ _ x hx,
    fun x hx => foldl_min_le_mem _ _ x hx,
    ?_⟩
  simp only [computeBbox, bboxSweep_eq_allRecords, foldl_bboxFold_split]

theorem findDupInBucket_some (ops : RealOps) (c : ParkingZoneSubmission)
    (b : List ParkingZone) (z : ParkingZone) (h : findDupInBucket ops c b = some z) :
    z ∈ b ∧ (ruleA ops c z ∨ ruleBCode ops c z) := by
  induction b with
  | nil => simp [findDupInBucket] at h
  | cons zone rest ih =>
    simp only [findDupInBucket] at h
    split at h
    · cases h
      exact ⟨List.mem_cons_self z rest, Or.inl (by assumption)⟩
    · split at h
      · cases h
        exact ⟨List.mem_cons_self z rest, Or.inr (by assumption)⟩
      · obtain ⟨hmem, hrule⟩ := ih h
        exact ⟨List.mem_cons_of_mem zone hmem, hrule⟩

theorem findDupInBucket_none (ops : RealOps) (c : ParkingZoneSubmission)
    (b : List ParkingZone) (h : findDupInBucket ops c b = none) :
    ∀ z ∈ b, ¬ruleA ops c z ∧ ¬ruleBCode ops c z := by
  induction b with
  | nil => simp
  | cons zone rest ih =>
    simp only [findDupInBucket] at h
    split at h
    · cases h
    · split at h
      · cases h
      · intro z hz
        rcases List.mem_cons.mp hz with rfl | h2
        · exact ⟨by assumption, by assumption⟩
        · exact ih h z h2

theorem findDuplicate_some_mem (ops : RealOps) (c : ParkingZoneSubmission)
    (zs : List (String × List ParkingZone)) (z : ParkingZone)
    (h : findDuplicate ops c zs = some z) :
    (∃ kb ∈ zs, z ∈ kb.2) ∧ (ruleA ops c z ∨ ruleBCode ops c z) := by
  induction zs with
  | nil => simp [findDuplicate] at h
  | cons kb rest ih =>
    obtain ⟨k, b⟩ := kb
    cases hfb : findDupInBucket ops c b with
    | some z2 =>
      simp only [findDuplicate, hfb] at h
      cases h
      obtain ⟨hmem, hrule⟩ := findDupInBucket_some ops c b z hfb
      exact ⟨⟨(k, b), by simp, hmem⟩, hrule⟩
    | none =>
      simp only [findDuplicate, hfb] at h
      obtain ⟨⟨kb2, hkb2, hmem⟩, hrule⟩ := ih h
      exact ⟨⟨kb2, by simp [hkb2], hmem⟩, hrule⟩

theorem findDuplicate_none_no_match (ops : RealOps) (c : ParkingZoneSubmission)
    (zs : List (String × List ParkingZone)) (h : findDuplicate ops c zs = none) :
    ∀ kb ∈ zs, ∀ z ∈ kb.2, ¬ruleA ops c z ∧ ¬ruleBCode ops c z := by
  induction zs with
  | nil => simp
  | cons kb rest ih =>
    obtain ⟨k, b⟩ := kb
    cases hfb : findDupInBucket ops c b with
    | some z2 => simp [findDuplicate, hfb] at h
    | none =>
      simp only [findDuplicate, hfb] at h
      intro kb2 hkb2 z hz
      rcases List.mem_cons.mp hkb2 with rfl | h2
      · exact findDupInBucket_none ops c b hfb z hz
      · exact ih h kb2 h2 z hz

theorem ruleBCode_iff_spec (ops : RealOps) (c : ParkingZoneSubmission) (z : ParkingZone)
    (hc : 0 ≤ c.radius) (hzr : 0 ≤ z.radius) :
    ruleBCode ops c z ↔ ruleBSpec ops c z := by
  unfold ruleBCode ruleBSpec
  constructor
  · rintro ⟨h1, h2, h3⟩
    refine ⟨h1, ?_, h3⟩
    rintro ⟨hc0, hz0⟩
    rw [hc0, hz0] at h2
    simp at h2
  · rintro ⟨h1, h2, h3⟩
    refine ⟨h1, ?_, h3⟩
    have hmax0 : 0 ≤ max c.radius z.radius := le_trans hc (le_max_left _ _)
    rcases eq_or_lt_of_le hmax0 with h4 | h4
    · exfalso
      apply h2
      constructor
      · exact le_antisymm (le_trans (le_max_left c.radius z.radius) h4.symm.le) hc
      · exact le_antisymm (le_trans (le_max_right c.radius z.radius) h4.symm.le) hzr
    · exact h4

/-- C3: the duplicate scan over every bucket of a region returns a record
exactly when some record matches Rule A (50 m and name similarity at
least 0.6) or Rule B (20 m and relative radius difference at most 0.3,
never firing when both radii are 0); it returns none on a region with no
records; and the Jaccard similarity treats two empty token sets as 1 and
an empty against a non-empty one as 0. -/
theorem findDuplicate_rules_characterization (ops : RealOps) (c : ParkingZoneSubmission)
    (zones : List (String × List ParkingZone))
    (hc : 0 ≤ c.radius)
    (hz : ∀ kb ∈ zones, ∀ z ∈ kb.2, 0 ≤ z.radius) :
    ((∃ z, findDuplicate ops c zones = some z ∧ ∃ kb ∈ zones, z ∈ kb.2)
        ↔ ∃ kb ∈ zones, ∃ z ∈ kb.2, ruleA ops c z ∨ ruleBSpec ops c z)
    ∧ ((∀ kb ∈ zones, kb.2 = []) → findDuplicate ops c zones = none)
    ∧ (∀ a b : String, nameTokens a = [] → nameTokens b = [] → nameSimilarity a b = 1)
    ∧ (∀ a b : String, nameTokens a = [] → nameTokens b ≠ [] → nameSimilarity a b = 0) := by
  refine ⟨⟨?_, ?_⟩, ?_, ?_, ?_⟩
  · rintro ⟨z, hsome, hmem⟩
    obtain ⟨⟨kb, hkb, hzkb⟩, hrule⟩ := findDuplicate_some_mem ops c zones z hsome
    refine ⟨kb, hkb, z, hzkb, ?_⟩
    rcases hrule with hA | hB
    · exact Or.inl hA
    · exact Or.inr ((ruleBCode_iff_spec ops c z hc (hz kb hkb z hzkb)).mp hB)
  · rintro ⟨kb, hkb, z, hzz, hrule⟩
    have hruleC : ruleA ops c z ∨ ruleBCode ops c z := by
      rcases hrule with hA | hB
      · exact Or.inl hA
      · exact Or.inr ((ruleBCode_iff_spec ops c z hc (hz kb hkb z hzz)).mpr hB)
    cases hd : findDuplicate ops c zones with
    | none =>
      have hno := findDuplicate_none_no_match ops c zones hd kb hkb z hzz
      rcases hruleC with hA | hB
      · exact absurd hA hno.1
      · exact absurd hB hno.2
    | some z2 =>
      exact ⟨z2, rfl, (findDuplicate_some_mem ops c zones z2 hd).1⟩
  · intro hempty
    cases hd : findDuplicate ops c zones with
    | none => rfl
    | some z2 =>
      obtain ⟨⟨kb, hkb, hmem⟩, _⟩ := findDuplicate_some_mem ops c zones z2 hd
      rw [hempty kb hkb] at hmem
      simp at hmem
  · intro a b ha hb
    simp [nameSimilarity, ha, hb]
  · intro a b ha hb
    have hlen : nameTokens b ≠ [] := hb
    simp [nameSimilarity, ha, List.length_eq_zero, hlen]

def sampleSub : ParkingZoneSubmission :=
  { name := "Britomart Transport Centre"
    center := { lat := 0, lng := 0 }
    radius := 40
    country := "NZ"
    region := "auckland" }

/-- Witness for C1 at a concrete shard satisfying the invariant. -/
theorem zoneCount_eq_sumBuckets_after_ops_witness :
    (processSubmission sampleGh sampleSub "u1" "t1" sampleShard).zoneCount
        = sumBuckets (processSubmission sampleGh sampleSub "u1" "t1" sampleShard).zones
    ∧ (∀ g i, (sampleShard.zones.map Prod.fst).Nodup →
        findInZones "cdn-NZ-auckland-0001" sampleShard.zones = some (g, i) →
        (applyUpdateToShard sampleGh sampleChanges "t1" sampleShard g i).zoneCount
          = sumBuckets (applyUpdateToShard sampleGh sampleChanges "t1" sampleShard g i).zones) :=
  zoneCount_eq_sumBuckets_after_ops sampleGh sampleSub "u1" "t1" sampleChanges
    "cdn-NZ-auckland-0001" sampleShard (by decide)

/-- Witness for C2 at a concrete relocating update. -/
theorem relocation_exactly_one_bucket_witness :
    countId "cdn-NZ-auckland-0001"
        (applyUpdateToShard sampleGh sampleChanges "t1" sampleShard "gh1" 0).zones = 1
    ∧ (∀ b, lookupBucket sampleShard.zones "gh1" = some b → b.eraseIdx 0 = [] →
        lookupBucket (applyUpdateToShard sampleGh sampleChanges "t1" sampleShard "gh1" 0).zones
          "gh1" = none) :=
  relocation_exactly_one_bucket sampleGh sampleChanges "t1" "cdn-NZ-auckland-0001"
    sampleShard "gh1" 0 { lat := 3, lng := 4 } (by decide) (by decide) (by decide) rfl (by decide)

/-- Witness for C3 at a concrete candidate and region. -/
theorem findDuplicate_rules_characterization_witness :
    ((∃ z, findDuplicate sampleOps sampleSub sampleShard.zones = some z
          ∧ ∃ kb ∈ sampleShard.zones, z ∈ kb.2)
        ↔ ∃ kb ∈ sampleShard.zones, ∃ z ∈ kb.2,
            ruleA sampleOps sampleSub z ∨ ruleBSpec sampleOps sampleSub z)
    ∧ ((∀ kb ∈ sampleShard.zones, kb.2 = []) →
        findDuplicate sampleOps sampleSub sampleShard.zones = none)
    ∧ (∀ a b : String, nameTokens a = [] → nameTokens b = [] → nameSimilarity a b = 1)
    ∧ (∀ a b : String, nameTokens a = [] → nameTokens b ≠ [] → nameSimilarity a b = 0) :=
  findDuplicate_rules_characterization sampleOps sampleSub sampleShard.zones
    (by decide) (by decide)

/-- Witness for C4 at a concrete accepted update. -/
theorem update_version_bump_and_frame_witness :
    ∃ stored, (∃ kb ∈ (applyUpdateToShard sampleGh sampleChanges "t1" sampleShard "gh1" 0).zones,
        stored ∈ kb.2)
      ∧ stored.id = (getAtBucket sampleShard.zones "gh1" 0).id
      ∧ stored.verified = (getAtBucket sampleShard.zones "gh1" 0).verified
      ∧ stored.version = (getAtBucket sampleShard.zones "gh1" 0).version + 1
      ∧ stored.name = sampleChanges.name.getD (getAtBucket sampleShard.zones "gh1" 0).name
      ∧ stored.center = sampleChanges.center.getD (getAtBucket sampleShard.zones "gh1" 0).center
      ∧ stored.radius = sampleChanges.radius.getD (getAtBucket sampleShard.zones "gh1" 0).radius
      ∧ stored.country = sampleChanges.country.getD (getAtBucket sampleShard.zones "gh1" 0).country
      ∧ stored.region = sampleChanges.region.getD (getAtBucket sampleShard.zones "gh1" 0).region :=
  update_version_bump_and_frame sampleGh sampleChanges "t1" "cdn-NZ-auckland-0001"
    sampleShard "gh1" 0 (by decide) (by decide)

/-- Witness for C7 at a concrete non-empty shard. -/
theorem computeBbox_padded_extrema_witness :
    ∃ latMax ∈ (allRecords sampleShard.zones).map (fun z => z.center.lat),
    ∃ latMin ∈ (allRecords sampleShard.zones).map (fun z => z.center.lat),
    ∃ lngMax ∈ (allRecords sampleShard.zones).map (fun z => z.center.lng),
    ∃ lngMin ∈ (allRecords sampleShard.zones).map (fun z => z.center.lng),
      (∀ x ∈ (allRecords sampleShard.zones).map (fun z => z.center.lat), x ≤ latMax)
      ∧ (∀ x ∈ (allRecords sampleShard.zones).map (fun z => z.center.lat), latMin ≤ x)
      ∧ (∀ x ∈ (allRecords sampleShard.zones).map (fun z => z.center.lng), x ≤ lngMax)
      ∧ (∀ x ∈ (allRecords sampleShard.zones).map (fun z => z.center.lng), lngMin ≤ x)
      ∧ computeBbox sampleShard.zones
          = { north := round1 (latMax + 0.05)
              south := round1 (latMin - 0.05)
              east := round1 (lngMax + 0.05)
              west := round1 (lngMin - 0.05) } :=
  computeBbox_padded_extrema sampleShard.zones (by decide) (by decide) (by decide)

/-- Witness for C8 at a concrete unknown id. -/
theorem update_unknown_id_notFound_witness :
    processUpdate sampleGh "missing-id" sampleChanges "t1" [sampleShard]
      = (UpdateStatus.notFound, [sampleShard]) :=
  update_unknown_id_notFound sampleGh "missing-id" sampleChanges "t1" [sampleShard]
    rfl (by decide)

/-- Witness for C9 at a concrete interpretation of the primitives. -/
theorem distanceMeters_self_zero_and_symm_witness :
    distanceMeters sampleOps { lat := 1, lng := 2 } { lat := 1, lng := 2 } = 0
    ∧ distanceMeters sampleOps { lat := 1, lng := 2 } { lat := 3, lng := 4 }
        = distanceMeters sampleOps { lat := 3, lng := 4 } { lat := 1, lng := 2 } :=
  distanceMeters_self_zero_and_symm sampleOps (fun x => rfl) rfl rfl
    { lat := 1, lng := 2 } { lat := 3, lng := 4 }

/-- Witness for C10 at the empty zones mapping. -/
theorem computeBbox_no_records_witness :
    computeBbox [] = { north := -899/10, south := 90, east := -1799/10, west := 180 }
    ∧ (computeBbox []).north < (computeBbox []).south
    ∧ (computeBbox []).east < (computeBbox []).west :=
  computeBbox_no_records [] (by simp)
